import Mathlib

/-!
Verification development for the Ninuki (capture five-in-a-row) GTP engine.

The repository's `gtp_connection.py` (command handlers, `solve_cmd`,
`run_alphaBeta`, `staticEvaluation`, `winner`, `game_over`, `play_cmd`,
`move_to_coord`, `point_to_coord`, `format_point`) is embedded faithfully.
The board primitives live in `board.py` / `board_base.py`, which are not part
of the source tree here; those definitions are modelled from the
specification and are marked `Modelled from the spec:` in their doc comments.
-/

namespace Ninuki

/-- Stone colors of the two players (BLACK / WHITE of `board_base`). -/
inductive Player
  | black
  | white
deriving DecidableEq, Repr

/-- Modelled from the spec: `opponent` of `board_base` swaps the two colors. -/
def opponent : Player → Player
  | .black => .white
  | .white => .black

/-- Cell states of the padded grid: EMPTY, BLACK, WHITE, BORDER. -/
inductive Cell
  | empty
  | black
  | white
  | border
deriving DecidableEq, Repr

/-- The cell holding a stone of the given player. -/
def Cell.ofPlayer : Player → Cell
  | .black => .black
  | .white => .white

/-- One undo record: the placed point and color, the player to move before the
placement, and the points of the stones the placement captured.
Modelled from the spec: `undoMove` uses history to restore the exact prior
state (cell contents and capture counters). -/
structure HistEntry where
  point : Nat
  color : Player
  prevPlayer : Player
  captured : List Nat
deriving DecidableEq, Repr

/-- Modelled from the spec: the Board of `board.py` — side length, 1-D padded
grid, per-color capture counters, player to move and move history. -/
structure Board where
  size : Nat
  grid : List Cell
  black_captures : Nat
  white_captures : Nat
  current_player : Player
  history : List HistEntry
deriving DecidableEq, Repr

/-- Length of the 1-D padded grid: rows 0..size+1 of stride size+1, sharing
one border column (the layout implied by `point_to_coord`'s
`divmod(point, size+1)` in the source). -/
def gridLen (size : Nat) : Nat := (size + 1) * (size + 2)

/-- Read a grid cell at a (possibly out-of-range) 1-D index; anything outside
the allocated array reads as BORDER, matching the border-sentinel design. -/
def getCellG (g : List Cell) (i : Int) : Cell :=
  if i < 0 then Cell.border else g.getD i.toNat Cell.border

/-- Read a cell of a board. -/
def Board.getCell (b : Board) (i : Int) : Cell := getCellG b.grid i

/-- Whether a 1-D index denotes an on-board intersection: row and column both
in 1..size for stride size+1. -/
def isInterior (size p : Nat) : Bool :=
  decide (1 ≤ p / (size + 1) ∧ p / (size + 1) ≤ size ∧
    1 ≤ p % (size + 1) ∧ p % (size + 1) ≤ size)

/-- All on-board intersections, in ascending index order. -/
def interiorPoints (size : Nat) : List Nat :=
  (List.range (gridLen size)).filter (fun p => isInterior size p)

/-- Modelled from the spec: `get_empty_points` — all non-border cells that are
currently EMPTY, in ascending index order (as `where1d` produces them). -/
def Board.get_empty_points (b : Board) : List Nat :=
  (interiorPoints b.size).filter (fun p => b.getCell (p : Int) == Cell.empty)

/-- Modelled from the spec: `get_captures(color)` of `board.py`. -/
def Board.get_captures (b : Board) (c : Player) : Nat :=
  match c with
  | .black => b.black_captures
  | .white => b.white_captures

/-- The four line directions (E, N, NE, NW) as 1-D offsets. -/
def lineDirs (size : Nat) : List Int :=
  [1, (size : Int) + 1, (size : Int) + 2, (size : Int)]

/-- All eight neighbor offsets (both senses of the four line directions). -/
def allDirs (size : Nat) : List Int :=
  [1, -1, (size : Int) + 1, -((size : Int) + 1),
   (size : Int) + 2, -((size : Int) + 2), (size : Int), -(size : Int)]

/-- Whether some on-board point starts five consecutive cells of color `c`
along one of the four line directions. -/
def hasFive (b : Board) (c : Cell) : Bool :=
  (interiorPoints b.size).any (fun p =>
    (lineDirs b.size).any (fun d =>
      (List.range 5).all (fun k => b.getCell ((p : Int) + d * (k : Int)) == c)))

/-- Modelled from the spec: `detect_five_in_a_row` — scans all four line
directions from every point for five consecutive same-colored stones and
returns the color achieving it, or EMPTY. -/
def Board.detect_five_in_a_row (b : Board) : Cell :=
  if hasFive b Cell.black then Cell.black
  else if hasFive b Cell.white then Cell.white
  else Cell.empty

/-- The capture-threshold result computed by `game_over` / `winner` /
`gogui_rules_final_result_cmd`: BLACK if black has at least 10 captures, else
WHITE if white has, else EMPTY (black checked first, source lines 297-300). -/
def result2 (b : Board) : Cell :=
  if 10 ≤ b.black_captures then Cell.black
  else if 10 ≤ b.white_captures then Cell.white
  else Cell.empty

/-- `game_over` of `gtp_connection.py` (lines 312-328): five in a row, a
capture count at least 10, or no empty points left. -/
def game_over (b : Board) : Bool :=
  decide (b.detect_five_in_a_row ≠ Cell.empty ∨ result2 b ≠ Cell.empty ∨
    b.get_empty_points.length = 0)

/-- `winner` of `gtp_connection.py` (lines 467-480): black if black has five
in a row or `result2` is black; otherwise white if white has five in a row or
`result2` is white; otherwise EMPTY. -/
def winner (board_copy : Board) : Cell :=
  let result1 := board_copy.detect_five_in_a_row
  let r2 := result2 board_copy
  if result1 = Cell.black ∨ r2 = Cell.black then Cell.black
  else if result1 = Cell.white ∨ r2 = Cell.white then Cell.white
  else Cell.empty

/-- `staticEvaluation` of `gtp_connection.py` (lines 567-591): -1000 when the
winner is the player passed in, 0 at a decided draw, 1 when the game is not
over, 10 when the winner is the other player. -/
def staticEvaluation (state : Board) (current_player : Player) : Int :=
  let win_color := winner state
  if win_color = Cell.ofPlayer current_player ∧ win_color ≠ Cell.empty then
    -1000
  else if win_color = Cell.empty then
    (if game_over state then 0 else 1)
  else 10

/-- The offsets (among the eight) along which placing `c` at `p` completes a
color-opp-opp-color bracket, evaluated on the grid `g` that already holds the
just-placed stone. -/
def bracketDirs (g : List Cell) (p : Nat) (c : Player) (size : Nat) : List Int :=
  (allDirs size).filter (fun d =>
    getCellG g ((p : Int) + d) == Cell.ofPlayer (opponent c) &&
    getCellG g ((p : Int) + 2 * d) == Cell.ofPlayer (opponent c) &&
    getCellG g ((p : Int) + 3 * d) == Cell.ofPlayer c)

/-- The points of the stones captured by placing `c` at `p`: the two bracketed
opponent stones of every completed bracket. -/
def capturedPoints (g : List Cell) (p : Nat) (c : Player) (size : Nat) : List Nat :=
  (bracketDirs g p c size).foldr
    (fun d acc => ((p : Int) + d).toNat :: ((p : Int) + 2 * d).toNat :: acc) []

/-- Set each listed index of the grid to the value `v`. -/
def setCells (g : List Cell) (pts : List Nat) (v : Cell) : List Cell :=
  pts.foldl (fun acc q => acc.set q v) g

/-- Modelled from the spec: the placement core shared by `play_move` and
`simulate_move` — put the stone down, remove the bracketed stones of every
completed bracket, and raise the mover's capture counter by 2 per bracket. -/
def applyStone (b : Board) (p : Nat) (c : Player) : Board :=
  let g1 := b.grid.set p (Cell.ofPlayer c)
  let caps := capturedPoints g1 p c b.size
  { b with
    grid := setCells g1 caps Cell.empty
    black_captures := b.black_captures + (if c = Player.black then caps.length else 0)
    white_captures := b.white_captures + (if c = Player.white then caps.length else 0) }

/-- Modelled from the spec: `simulate_move` of `board.py`, the placement the
search applies to a child copy. Per spec 4.4 the search then recurses with the
opponent to move; since `run_alphaBeta` recurses on
`opponent(new_board.current_player)`, the modelled `simulate_move` records the
mover as `current_player`. -/
def Board.simulate_move (b : Board) (p : Nat) (c : Player) : Board :=
  { applyStone b p c with current_player := c }

/-- Modelled from the spec: `play_move` of `board.py` — places a stone of
`color` at `point` if empty (failure without mutation otherwise), performs
captures, switches the current player and pushes an undo record. -/
def Board.play_move (b : Board) (p : Nat) (c : Player) : Option Board :=
  if b.getCell (p : Int) = Cell.empty then
    some { applyStone b p c with
      current_player := opponent c
      history :=
        ⟨p, c, b.current_player,
          capturedPoints (b.grid.set p (Cell.ofPlayer c)) p c b.size⟩ :: b.history }
  else none

/-- Modelled from the spec: `undoMove` of `board.py` — reverses the most
recent placement and any captures it caused using the history record, failing
on empty history. -/
def Board.undoMove (b : Board) : Option Board :=
  match b.history with
  | [] => none
  | e :: rest =>
    some { b with
      grid := setCells (b.grid.set e.point Cell.empty) e.captured
        (Cell.ofPlayer (opponent e.color))
      black_captures :=
        b.black_captures - (if e.color = Player.black then e.captured.length else 0)
      white_captures :=
        b.white_captures - (if e.color = Player.white then e.captured.length else 0)
      current_player := e.prevPlayer
      history := rest }

/-- Modelled from the spec: the move score of `heuristicEvaluation` — a
deterministic integer score of estimated strategic value (here: proximity,
the number of neighboring stones of the mover's color). -/
def heuristicScore (b : Board) (c : Player) (m : Nat) : Int :=
  ((allDirs b.size).filter
    (fun d => b.getCell ((m : Int) + d) == Cell.ofPlayer c)).length

/-- Modelled from the spec: `heuristicEvaluation(color, moves)` of `board.py`
— the move-to-score mapping, one entry per candidate in candidate order. -/
def Board.heuristicEvaluation (b : Board) (c : Player) (moves : List Nat) :
    List (Nat × Int) :=
  moves.map (fun m => (m, heuristicScore b c m))

/-- Stable descending insertion of a scored move (an earlier element keeps its
place among equal scores), the order produced by Python's stable
`sorted(..., key=itemgetter(1), reverse=True)` at source line 503. -/
def insertDesc (x : Nat × Int) : List (Nat × Int) → List (Nat × Int)
  | [] => [x]
  | y :: ys => if y.2 ≤ x.2 then x :: y :: ys else y :: insertDesc x ys

/-- Stable sort of the scored moves by descending score (source line 503). -/
def sortDesc : List (Nat × Int) → List (Nat × Int)
  | [] => []
  | x :: xs => insertDesc x (sortDesc xs)

/-- The move order the search iterates: candidate moves sorted by descending
heuristic score, ties kept in candidate (ascending index) order. -/
def orderedMoves (b : Board) (c : Player) : List Nat :=
  (sortDesc (b.heuristicEvaluation c b.get_empty_points)).map Prod.fst

/-- Return value of `run_alphaBeta`: a plain bound at inner frames, a
bound-plus-move pair at the root frame (depth 0). The move component mirrors
`self.board.best_move`, which may be unset (`none`). -/
inductive SearchRet
  | val (v : Int)
  | valMove (v : Int) (mv : Option Nat)
deriving DecidableEq, Repr

/-- The numeric component of a search return. -/
def SearchRet.value : SearchRet → Int
  | .val v => v
  | .valMove v _ => v

/-- Fold of `max` over the values of a move list, the shape of the unpruned
negamax child aggregation. -/
def foldMax (f : Nat → Int) (init : Int) (l : List Nat) : Int :=
  l.foldl (fun a m => max a (f m)) init

/-- The value skeleton of the `for move in ...` loop of `run_alphaBeta`
(source lines 510-556): evaluate the child, raise alpha on improvement
(`if value > alpha: alpha = value`), and return beta at once on a cutoff
(`if value >= beta: return beta`; the alpha update does not influence the
cutoff test, so it is applied on the non-cutoff path only). -/
def abLoop (childV : Nat → Int → Int) (β : Int) : Int → List Nat → Int
  | a, [] => a
  | a, m :: ms =>
    if β ≤ childV m a then β
    else abLoop childV β (if a < childV m a then childV m a else a) ms

/-- The value skeleton of `run_alphaBeta` (source lines 484-565), fuel-indexed
to embed the unbounded recursion: at a terminal (or fuel-exhausted) node the
static evaluation, otherwise the alpha-beta loop over the heuristically
ordered moves. -/
def run_alphaBeta_val (fuel : Nat) (b : Board) (α β : Int) (p : Player) : Int :=
  if game_over b then staticEvaluation b p
  else
    match fuel with
    | 0 => staticEvaluation b p
    | f + 1 =>
      abLoop
        (fun m a =>
          -(run_alphaBeta_val f (b.simulate_move m p) (-β) (-a) (opponent p)))
        β α (orderedMoves b p)

/-- The full `for move in ...` loop of `run_alphaBeta` with the depth-0
special casing and the writes to `self.board.best_move` threaded through
(source lines 510-565). `child m a best` returns the negated child value and
the best-move attribute after the child's recursion. -/
def abLoopFull (child : Nat → Int → Option Nat → Int × Option Nat) (β : Int)
    (depth : Nat) : Int → Option Nat → List Nat → SearchRet × Option Nat
  | a, best, [] =>
    ((if depth = 0 then SearchRet.valMove a best else SearchRet.val a), best)
  | a, best, m :: ms =>
    if β ≤ (child m a best).1 then
      ((if depth = 0 then SearchRet.valMove β (some m) else SearchRet.val β),
       if a < (child m a best).1 then some m else (child m a best).2)
    else
      abLoopFull child β depth
        (if a < (child m a best).1 then (child m a best).1 else a)
        (if a < (child m a best).1 then some m else (child m a best).2) ms

/-- `run_alphaBeta` of `gtp_connection.py` (lines 484-565), fuel-indexed: the
faithful embedding including the depth-0 tuple returns and the
`self.board.best_move` attribute (threaded as the `Option Nat` component). -/
def run_alphaBeta (fuel : Nat) (b : Board) (α β : Int) (p : Player)
    (depth : Nat) (best : Option Nat) : SearchRet × Option Nat :=
  if game_over b then (SearchRet.val (staticEvaluation b p), best)
  else
    match fuel with
    | 0 => (SearchRet.val (staticEvaluation b p), best)
    | f + 1 =>
      abLoopFull
        (fun m a bst =>
          let r := run_alphaBeta f (b.simulate_move m p) (-β) (-a) (opponent p)
            (depth + 1) bst
          (-(r.1.value), r.2))
        β depth α best (orderedMoves b p)

/-- The unpruned full-depth negamax over the same position model: at a
terminal (or fuel-exhausted) node the static evaluation, otherwise the
maximum of the negated child values over all legal moves. This definition
follows the spec's words for the reference search that alpha-beta pruning
must agree with. -/
def negamax (fuel : Nat) (b : Board) (p : Player) : Int :=
  if game_over b then staticEvaluation b p
  else
    match fuel with
    | 0 => staticEvaluation b p
    | f + 1 =>
      foldMax (fun m => -(negamax f (b.simulate_move m p) (opponent p)))
        (-10000) b.get_empty_points

/-- `point_to_coord` of `gtp_connection.py` (lines 620-630):
`divmod(point, size+1)`. -/
def point_to_coord (point : Nat) (boardsize : Nat) : Nat × Nat :=
  (point / (boardsize + 1), point % (boardsize + 1))

/-- The column letter used by `format_point`: `column_letters[col - 1]` with
Python's negative-index wraparound at `col = 0`. -/
def colLetter (col : Nat) : Char :=
  if col = 0 then 'Z'
  else "ABCDEFGHJKLMNOPQRSTUVWXYZ".toList.getD (col - 1) 'Z'

/-- `format_point` of `gtp_connection.py` (lines 633-644): column letter
(skipping I) followed by the row number; raises ValueError outside 0..24. -/
def format_point (move : Nat × Nat) : Except String String :=
  if 25 ≤ move.1 ∨ 25 ≤ move.2 then Except.error "ValueError"
  else Except.ok (String.mk [colLetter move.2] ++ toString move.1)

/-- Lower-casing of one ASCII character. -/
def asciiLower (ch : Char) : Char :=
  if 65 ≤ ch.toNat ∧ ch.toNat ≤ 90 then Char.ofNat (ch.toNat + 32) else ch

/-- ASCII lower-casing, Python's `str.lower` on the strings used here. -/
def strLower (s : String) : String := ⟨s.data.map asciiLower⟩

/-- Formatting of the root move by `solve_cmd` (lines 450-451):
`format_point(point_to_coord(move, size)).lower()`. -/
def bestMoveString (m : Nat) (size : Nat) : Except String String :=
  match format_point (point_to_coord m size) with
  | .error e => .error e
  | .ok s => .ok (strLower s)

/-- The response construction of `solve_cmd` (lines 441-465) given the value
returned by `run_alphaBeta` and the threaded `self.board.best_move`:
subscripting a plain int return raises TypeError; reading a never-assigned
`best_move` raises AttributeError; `self.timelimit_cmd == False` is always
false (a bound method), so the "unknown" branch is dead; otherwise the winner
of the (unmutated) root copy selects the response, with the final else branch
hard-coding "white". -/
def solveRespond (b : Board) (r : SearchRet) : Except String String :=
  match r with
  | .val _ => .error "TypeError"
  | .valMove _ mv =>
    match mv with
    | none => .error "AttributeError"
    | some m =>
      match bestMoveString m b.size with
      | .error e => .error e
      | .ok best_move_string =>
        let w := winner b
        if w = Cell.ofPlayer b.current_player ∨ w = Cell.empty then
          if w = Cell.empty then .ok ("draw " ++ best_move_string)
          else if b.current_player = Player.black then
            .ok ("black " ++ best_move_string)
          else .ok ("white " ++ best_move_string)
        else .ok "white"

/-- `solve_cmd` of `gtp_connection.py` (lines 427-465), fuel-indexed: search
from a copy of the live board (`move_dict` only fills scratch dictionaries),
then build the response. Returns the response (or the raised error), the
live board, and the live `best_move` attribute. -/
def solve_cmd (fuel : Nat) (b : Board) (best : Option Nat) :
    Except String String × Board × Option Nat :=
  let root_board_copy := b
  let res := run_alphaBeta fuel root_board_copy (-10000) 10000
    b.current_player 0 best
  (solveRespond b res.1, b, res.2)

/-- Numeric value of a nonempty all-digit character list. -/
def digitsVal (cs : List Char) : Option Nat :=
  if cs ≠ [] ∧ cs.all Char.isDigit then
    some (cs.foldl (fun a ch => a * 10 + (ch.toNat - 48)) 0)
  else none

/-- Python's `int(...)` on the row part of a coordinate string: surrounding
whitespace and one optional sign are allowed around a nonempty digit run. -/
def parsePyInt (cs : List Char) : Option Int :=
  let t :=
    ((cs.dropWhile Char.isWhitespace).reverse.dropWhile Char.isWhitespace).reverse
  match t with
  | '-' :: rest => (digitsVal rest).map (fun n => -(n : Int))
  | '+' :: rest => (digitsVal rest).map (fun n => (n : Int))
  | _ => (digitsVal t).map (fun n => (n : Int))

/-- `move_to_coord` of `gtp_connection.py` (lines 647-672): lower-case the
string, accept "pass" (`ok none`), require a column letter a..z other than i,
a row number at least 1, and both coordinates within the board. -/
def move_to_coord (point_str : String) (board_size : Nat) :
    Except String (Option (Nat × Nat)) :=
  if ¬(2 ≤ board_size ∧ board_size ≤ 25) then
    .error "board_size out of range"
  else
    let s := strLower point_str
    if s = "pass" then .ok none
    else
      match s.toList with
      | [] => .error "wrong coordinate"
      | col_c :: rest =>
        if ¬(97 ≤ col_c.toNat ∧ col_c.toNat ≤ 122) ∨ col_c = 'i' then
          .error "wrong coordinate"
        else
          let col0 := col_c.toNat - 97
          let col := if col_c.toNat < 105 then col0 + 1 else col0
          match parsePyInt rest with
          | none => .error "wrong coordinate"
          | some row =>
            if row < 1 then .error "wrong coordinate"
            else if ¬((col : Int) ≤ (board_size : Int) ∧ row ≤ (board_size : Int)) then
              .error "wrong coordinate"
            else .ok (some (row.toNat, col))

/-- Modelled from the spec: `coord_to_point` of `board_base` — the inverse of
`point_to_coord`'s `divmod(point, size+1)`. -/
def coord_to_point (row col size : Nat) : Nat := row * (size + 1) + col

/-- Outcome of a `play` command: success, or a local failure reported with a
descriptive reason. -/
inductive PlayRes
  | done
  | illegal (reason : String)
deriving DecidableEq, Repr

/-- `play_cmd` of `gtp_connection.py` (lines 360-387): returns the response
and the (possibly updated) board. A wrong color, an exception raised by
`move_to_coord` (caught by the handler's `except`), a PASS reaching
`coord_to_point` (whose coordinate assertions fail on the PASS sentinel), and
an occupied target all report a local failure and leave the board unchanged. -/
def play_cmd (b : Board) (colorStr moveStr : String) : PlayRes × Board :=
  let board_color := strLower colorStr
  if board_color ≠ "b" ∧ board_color ≠ "w" then (.illegal "wrong color", b)
  else
    match move_to_coord moveStr b.size with
    | .error e => (.illegal e, b)
    | .ok none => (.illegal "pass", b)
    | .ok (some (row, col)) =>
      let move := coord_to_point row col b.size
      let color := if board_color = "b" then Player.black else Player.white
      match b.play_move move color with
      | none => (.illegal "occupied", b)
      | some b2 => (.done, b2)

/-! ### Fold-of-max helper lemmas -/

theorem le_foldMax (f : Nat → Int) (l : List Nat) :
    ∀ init : Int, init ≤ foldMax f init l := by
  induction l with
  | nil => intro init; simp [foldMax]
  | cons m ms ih =>
    intro init
    simp only [foldMax, List.foldl_cons]
    exact le_trans (le_max_left _ _) (ih (max init (f m)))

theorem foldMax_le (f : Nat → Int) (l : List Nat) :
    ∀ init B : Int, init ≤ B → (∀ x ∈ l, f x ≤ B) → foldMax f init l ≤ B := by
  induction l with
  | nil => intro init B hi _; simpa [foldMax] using hi
  | cons m ms ih =>
    intro init B hi hmem
    simp only [foldMax, List.foldl_cons]
    exact ih _ B (max_le hi (hmem m (List.mem_cons_self m ms)))
      (fun x hx => hmem x (List.mem_cons_of_mem _ hx))

theorem mem_le_foldMax (f : Nat → Int) (l : List Nat) :
    ∀ init : Int, ∀ x ∈ l, f x ≤ foldMax f init l := by
  induction l with
  | nil => intro init x hx; cases hx
  | cons m ms ih =>
    intro init x hx
    rcases List.mem_cons.1 hx with h | h
    · subst h
      simp only [foldMax, List.foldl_cons]
      exact le_trans (le_max_right _ _) (le_foldMax f ms _)
    · simp only [foldMax, List.foldl_cons]
      exact ih _ x h

theorem foldMax_max_comm (f : Nat → Int) (l : List Nat) :
    ∀ a c : Int, foldMax f (max a c) l = max a (foldMax f c l) := by
  induction l with
  | nil => intro a c; simp [foldMax]
  | cons m ms ih =>
    intro a c
    simp only [foldMax, List.foldl_cons] at *
    rw [max_assoc, ih]

theorem foldMax_eq_init_or_mem (f : Nat → Int) (l : List Nat) :
    ∀ init : Int, foldMax f init l = init ∨ ∃ m ∈ l, foldMax f init l = f m := by
  induction l with
  | nil => intro init; left; simp [foldMax]
  | cons m ms ih =>
    intro init
    rw [show foldMax f init (m :: ms) = foldMax f (max init (f m)) ms from rfl]
    rcases ih (max init (f m)) with h | ⟨x, hx, hfx⟩
    · rcases max_choice init (f m) with hm | hm
      · left; rw [h, hm]
      · right; exact ⟨m, List.mem_cons_self m ms, by rw [h, hm]⟩
    · right; exact ⟨x, List.mem_cons_of_mem _ hx, hfx⟩

theorem foldMax_perm (f : Nat → Int) {l₁ l₂ : List Nat} (h : l₁.Perm l₂) :
    ∀ init : Int, foldMax f init l₁ = foldMax f init l₂ := by
  induction h with
  | nil => intro init; rfl
  | cons x _ ih =>
    intro init
    simp only [foldMax, List.foldl_cons] at *
    exact ih _
  | swap x y l =>
    intro init
    simp only [foldMax, List.foldl_cons]
    rw [max_assoc, max_assoc, max_comm (f y) (f x)]
  | trans _ _ ih₁ ih₂ =>
    intro init
    exact (ih₁ init).trans (ih₂ init)

/-! ### Permutation and order facts for the sorted move list -/

theorem insertDesc_perm (x : Nat × Int) :
    ∀ l : List (Nat × Int), (insertDesc x l).Perm (x :: l) := by
  intro l
  induction l with
  | nil => exact List.Perm.refl _
  | cons y ys ih =>
    by_cases h : y.2 ≤ x.2
    · simp [insertDesc, h]
    · simp only [insertDesc, if_neg h]
      exact (List.Perm.cons y ih).trans (List.Perm.swap x y ys)

theorem sortDesc_perm : ∀ l : List (Nat × Int), (sortDesc l).Perm l := by
  intro l
  induction l with
  | nil => exact List.Perm.refl _
  | cons x xs ih =>
    exact (insertDesc_perm x (sortDesc xs)).trans (List.Perm.cons x ih)

theorem orderedMoves_perm (b : Board) (c : Player) :
    (orderedMoves b c).Perm b.get_empty_points := by
  have h := (sortDesc_perm (b.heuristicEvaluation c b.get_empty_points)).map Prod.fst
  have h2 : (b.heuristicEvaluation c b.get_empty_points).map Prod.fst =
      b.get_empty_points := by
    calc (b.heuristicEvaluation c b.get_empty_points).map Prod.fst
        = b.get_empty_points.map id := by
          simp only [Board.heuristicEvaluation, List.map_map]; rfl
      _ = b.get_empty_points := List.map_id _
  simpa [orderedMoves, h2] using h

/-! ### Terminal-evaluation facts -/

theorem staticEvaluation_terminal (b : Board) (p : Player)
    (h : game_over b = true) :
    staticEvaluation b p = -1000 ∨ staticEvaluation b p = 0 ∨
      staticEvaluation b p = 10 := by
  simp only [staticEvaluation, h, if_true]
  split_ifs
  · exact Or.inl rfl
  · exact Or.inr (Or.inl rfl)
  · exact Or.inr (Or.inr rfl)

theorem staticEvaluation_bounds (b : Board) (p : Player) :
    -1000 ≤ staticEvaluation b p ∧ staticEvaluation b p ≤ 1000 := by
  simp only [staticEvaluation]
  split_ifs <;> norm_num

theorem get_empty_points_ne_nil (b : Board) (h : game_over b = false) :
    b.get_empty_points ≠ [] := by
  have hprop := of_decide_eq_false h
  push_neg at hprop
  intro hnil
  exact hprop.2.2 (by rw [hnil]; rfl)

theorem caps_lt_of_not_over (b : Board) (h : game_over b = false) :
    b.black_captures < 10 ∧ b.white_captures < 10 := by
  have hprop := of_decide_eq_false h
  push_neg at hprop
  have h2 := hprop.2.1
  refine ⟨?_, ?_⟩
  · by_contra hb
    push_neg at hb
    have hres : result2 b = Cell.black := by unfold result2; rw [if_pos hb]
    rw [hres] at h2; cases h2
  · by_contra hw
    push_neg at hw
    have hres : result2 b = Cell.black ∨ result2 b = Cell.white := by
      unfold result2
      by_cases hb : 10 ≤ b.black_captures
      · left; rw [if_pos hb]
      · right; rw [if_neg hb, if_pos hw]
    rcases hres with hh | hh <;> (rw [hh] at h2; cases h2)

/-! ### Unfolding equations for the fuel-indexed searches -/

theorem negamax_zero (b : Board) (p : Player) :
    negamax 0 b p = staticEvaluation b p := by
  have h : negamax 0 b p =
      if game_over b then staticEvaluation b p else staticEvaluation b p := rfl
  rw [h, ite_self]

theorem run_alphaBeta_val_zero (b : Board) (α β : Int) (p : Player) :
    run_alphaBeta_val 0 b α β p = staticEvaluation b p := by
  have h : run_alphaBeta_val 0 b α β p =
      if game_over b then staticEvaluation b p else staticEvaluation b p := rfl
  rw [h, ite_self]

theorem negamax_succ (f : Nat) (b : Board) (p : Player) :
    negamax (f + 1) b p =
      if game_over b then staticEvaluation b p
      else foldMax (fun m => -(negamax f (b.simulate_move m p) (opponent p)))
        (-10000) b.get_empty_points := rfl

theorem negamax_over (fuel : Nat) (b : Board) (p : Player)
    (hg : game_over b = true) :
    negamax fuel b p = staticEvaluation b p := by
  cases fuel with
  | zero => exact negamax_zero b p
  | succ f => rw [negamax_succ, if_pos hg]

theorem negamax_succ_not_over (f : Nat) (b : Board) (p : Player)
    (hg : game_over b = false) :
    negamax (f + 1) b p =
      foldMax (fun m => -(negamax f (b.simulate_move m p) (opponent p)))
        (-10000) b.get_empty_points := by
  rw [negamax_succ, if_neg (by simp [hg])]

theorem run_alphaBeta_val_succ (f : Nat) (b : Board) (α β : Int) (p : Player) :
    run_alphaBeta_val (f + 1) b α β p =
      if game_over b then staticEvaluation b p
      else abLoop
        (fun m a =>
          -(run_alphaBeta_val f (b.simulate_move m p) (-β) (-a) (opponent p)))
        β α (orderedMoves b p) := rfl

theorem run_alphaBeta_val_over (fuel : Nat) (b : Board) (α β : Int)
    (p : Player) (hg : game_over b = true) :
    run_alphaBeta_val fuel b α β p = staticEvaluation b p := by
  cases fuel with
  | zero => exact run_alphaBeta_val_zero b α β p
  | succ f => rw [run_alphaBeta_val_succ, if_pos hg]

theorem run_alphaBeta_val_succ_not_over (f : Nat) (b : Board) (α β : Int)
    (p : Player) (hg : game_over b = false) :
    run_alphaBeta_val (f + 1) b α β p =
      abLoop
        (fun m a =>
          -(run_alphaBeta_val f (b.simulate_move m p) (-β) (-a) (opponent p)))
        β α (orderedMoves b p) := by
  rw [run_alphaBeta_val_succ, if_neg (by simp [hg])]

theorem abLoop_nil (childV : Nat → Int → Int) (β a : Int) :
    abLoop childV β a [] = a := rfl

theorem abLoop_cons (childV : Nat → Int → Int) (β a : Int) (m : Nat)
    (ms : List Nat) :
    abLoop childV β a (m :: ms) =
      if β ≤ childV m a then β
      else abLoop childV β (if a < childV m a then childV m a else a) ms := rfl

/-! ### The search values stay within the sentinel range -/

theorem negamax_bounds : ∀ (fuel : Nat) (b : Board) (p : Player),
    -1000 ≤ negamax fuel b p ∧ negamax fuel b p ≤ 1000 := by
  intro fuel
  induction fuel with
  | zero =>
    intro b p
    rw [negamax_zero]
    exact staticEvaluation_bounds b p
  | succ f ih =>
    intro b p
    cases hg : game_over b with
    | true =>
      rw [negamax_over (f + 1) b p hg]
      exact staticEvaluation_bounds b p
    | false =>
      rw [negamax_succ_not_over f b p hg]
      constructor
      · obtain ⟨m, hm⟩ :=
          List.exists_mem_of_ne_nil _ (get_empty_points_ne_nil b hg)
        have h1 := (ih (b.simulate_move m p) (opponent p)).2
        have h2 : -(negamax f (b.simulate_move m p) (opponent p)) ≤
            foldMax (fun m => -(negamax f (b.simulate_move m p) (opponent p)))
              (-10000) b.get_empty_points :=
          mem_le_foldMax _ b.get_empty_points (-10000) m hm
        omega
      · apply foldMax_le
        · norm_num
        · intro x _
          have := (ih (b.simulate_move x p) (opponent p)).1
          omega

/-! ### The pruned loop computes a fail-hard clamp of the true maximum -/

theorem abLoop_spec (β : Int) (childV : Nat → Int → Int) (g : Nat → Int)
    (hchild : ∀ m a, -10000 ≤ a → a < β →
      (g m ≤ a → childV m a ≤ a) ∧ (β ≤ g m → β ≤ childV m a) ∧
      (a < g m → g m < β → childV m a = g m)) :
    ∀ (ms : List Nat) (a : Int), -10000 ≤ a → a < β →
      (foldMax g a ms < β → abLoop childV β a ms = foldMax g a ms) ∧
      (β ≤ foldMax g a ms → abLoop childV β a ms = β) := by
  intro ms
  induction ms with
  | nil =>
    intro a _ hab
    refine ⟨fun _ => rfl, fun hba => ?_⟩
    simp only [foldMax, List.foldl_nil] at hba
    omega
  | cons m ms ih =>
    intro a ha hab
    have hc := hchild m a ha hab
    have hfold : foldMax g a (m :: ms) = foldMax g (max a (g m)) ms := rfl
    by_cases h1 : β ≤ g m
    · have hv : β ≤ childV m a := hc.2.1 h1
      have hloop : abLoop childV β a (m :: ms) = β := by
        rw [abLoop_cons, if_pos hv]
      have hw : β ≤ foldMax g a (m :: ms) := by
        rw [hfold]
        exact le_trans (le_trans h1 (le_max_right a (g m)))
          (le_foldMax g ms (max a (g m)))
      exact ⟨fun hlt => absurd hw (not_le.2 hlt), fun _ => hloop⟩
    · push_neg at h1
      by_cases h2 : g m ≤ a
      · have hv : childV m a ≤ a := hc.1 h2
        have hstep : abLoop childV β a (m :: ms) = abLoop childV β a ms := by
          rw [abLoop_cons, if_neg (by omega), if_neg (by omega)]
        have hfold2 : foldMax g a (m :: ms) = foldMax g a ms := by
          rw [hfold, max_eq_left h2]
        rw [hstep, hfold2]
        exact ih a ha hab
      · push_neg at h2
        have hv : childV m a = g m := hc.2.2 h2 h1
        have hstep : abLoop childV β a (m :: ms) = abLoop childV β (g m) ms := by
          rw [abLoop_cons, if_neg (by omega), if_pos (by omega), hv]
        have hfold2 : foldMax g a (m :: ms) = foldMax g (g m) ms := by
          rw [hfold, max_eq_right (le_of_lt h2)]
        rw [hstep, hfold2]
        exact ih (g m) (by omega) h1

/-- Fail-hard alpha-beta three-case property: within the window the pruned
value equals the unpruned negamax value; outside it, it fails on the same
side of the window. -/
theorem alphaBeta_threeCases : ∀ (fuel : Nat) (b : Board) (p : Player)
    (α β : Int), -10000 ≤ α → β ≤ 10000 → α < β →
    (negamax fuel b p ≤ α → run_alphaBeta_val fuel b α β p ≤ α) ∧
    (β ≤ negamax fuel b p → β ≤ run_alphaBeta_val fuel b α β p) ∧
    (α < negamax fuel b p → negamax fuel b p < β →
      run_alphaBeta_val fuel b α β p = negamax fuel b p) := by
  intro fuel
  induction fuel with
  | zero =>
    intro b p α β _ _ _
    rw [negamax_zero, run_alphaBeta_val_zero]
    exact ⟨id, id, fun _ _ => rfl⟩
  | succ f ih =>
    intro b p α β hα hβ hαβ
    cases hg : game_over b with
    | true =>
      rw [negamax_over (f + 1) b p hg, run_alphaBeta_val_over (f + 1) b α β p hg]
      exact ⟨id, id, fun _ _ => rfl⟩
    | false =>
      have hchild : ∀ (m : Nat) (a : Int), -10000 ≤ a → a < β →
          (-(negamax f (b.simulate_move m p) (opponent p)) ≤ a →
            -(run_alphaBeta_val f (b.simulate_move m p) (-β) (-a)
              (opponent p)) ≤ a) ∧
          (β ≤ -(negamax f (b.simulate_move m p) (opponent p)) →
            β ≤ -(run_alphaBeta_val f (b.simulate_move m p) (-β) (-a)
              (opponent p))) ∧
          (a < -(negamax f (b.simulate_move m p) (opponent p)) →
            -(negamax f (b.simulate_move m p) (opponent p)) < β →
            -(run_alphaBeta_val f (b.simulate_move m p) (-β) (-a)
              (opponent p)) =
              -(negamax f (b.simulate_move m p) (opponent p))) := by
        intro m a ha hab
        obtain ⟨i1, i2, i3⟩ := ih (b.simulate_move m p) (opponent p) (-β) (-a)
          (by omega) (by omega) (by omega)
        refine ⟨fun hga => ?_, fun hgb => ?_, fun hlo hhi => ?_⟩
        · have := i2 (by omega)
          omega
        · have := i1 (by omega)
          omega
        · have := i3 (by omega) (by omega)
          omega
      have hspec := abLoop_spec β
        (fun m a =>
          -(run_alphaBeta_val f (b.simulate_move m p) (-β) (-a) (opponent p)))
        (fun m => -(negamax f (b.simulate_move m p) (opponent p)))
        hchild (orderedMoves b p) α hα hαβ
      rw [negamax_succ_not_over f b p hg,
        run_alphaBeta_val_succ_not_over f b α β p hg]
      have hperm := foldMax_perm
        (fun m => -(negamax f (b.simulate_move m p) (opponent p)))
        (orderedMoves_perm b p) α
      have hsplit : foldMax
          (fun m => -(negamax f (b.simulate_move m p) (opponent p)))
          α b.get_empty_points =
          max α (foldMax
            (fun m => -(negamax f (b.simulate_move m p) (opponent p)))
            (-10000) b.get_empty_points) := by
        conv_lhs => rw [show α = max α (-10000) by omega]
        rw [foldMax_max_comm]
      rw [hperm, hsplit] at hspec
      refine ⟨fun hle => ?_, fun hge => ?_, fun hlo hhi => ?_⟩
      · have hw : max α (foldMax
            (fun m => -(negamax f (b.simulate_move m p) (opponent p)))
            (-10000) b.get_empty_points) = α := by omega
        rw [hw] at hspec
        rw [hspec.1 hαβ]
      · have := hspec.2 (by omega)
        omega
      · have hw : max α (foldMax
            (fun m => -(negamax f (b.simulate_move m p) (opponent p)))
            (-10000) b.get_empty_points) =
            foldMax (fun m => -(negamax f (b.simulate_move m p) (opponent p)))
              (-10000) b.get_empty_points := by omega
        rw [hw] at hspec
        exact hspec.1 hhi

/-! ### The faithful search and its value skeleton agree -/

theorem abLoopFull_nil (child : Nat → Int → Option Nat → Int × Option Nat)
    (β : Int) (depth : Nat) (a : Int) (best : Option Nat) :
    abLoopFull child β depth a best [] =
      ((if depth = 0 then SearchRet.valMove a best else SearchRet.val a),
        best) := rfl

theorem abLoopFull_cons (child : Nat → Int → Option Nat → Int × Option Nat)
    (β : Int) (depth : Nat) (a : Int) (best : Option Nat) (m : Nat)
    (ms : List Nat) :
    abLoopFull child β depth a best (m :: ms) =
      if β ≤ (child m a best).1 then
        ((if depth = 0 then SearchRet.valMove β (some m) else SearchRet.val β),
         if a < (child m a best).1 then some m else (child m a best).2)
      else
        abLoopFull child β depth
          (if a < (child m a best).1 then (child m a best).1 else a)
          (if a < (child m a best).1 then some m else (child m a best).2)
          ms := rfl

theorem abLoopFull_value (child : Nat → Int → Option Nat → Int × Option Nat)
    (childV : Nat → Int → Int)
    (hcv : ∀ m a bst, (child m a bst).1 = childV m a) (β : Int) (depth : Nat) :
    ∀ (ms : List Nat) (a : Int) (best : Option Nat),
      ((abLoopFull child β depth a best ms).1).value = abLoop childV β a ms := by
  intro ms
  induction ms with
  | nil =>
    intro a best
    rw [abLoopFull_nil, abLoop_nil]
    by_cases hd : depth = 0
    · rw [if_pos hd]; rfl
    · rw [if_neg hd]; rfl
  | cons m ms ih =>
    intro a best
    rw [abLoopFull_cons, abLoop_cons, hcv]
    by_cases hcut : β ≤ childV m a
    · rw [if_pos hcut, if_pos hcut]
      by_cases hd : depth = 0
      · rw [if_pos hd]; rfl
      · rw [if_neg hd]; rfl
    · rw [if_neg hcut, if_neg hcut]
      exact ih _ _

theorem run_alphaBeta_zero (b : Board) (α β : Int) (p : Player) (depth : Nat)
    (best : Option Nat) :
    run_alphaBeta 0 b α β p depth best =
      (SearchRet.val (staticEvaluation b p), best) := by
  have h : run_alphaBeta 0 b α β p depth best =
      if game_over b then (SearchRet.val (staticEvaluation b p), best)
      else (SearchRet.val (staticEvaluation b p), best) := rfl
  rw [h, ite_self]

theorem run_alphaBeta_succ (f : Nat) (b : Board) (α β : Int) (p : Player)
    (depth : Nat) (best : Option Nat) :
    run_alphaBeta (f + 1) b α β p depth best =
      if game_over b then (SearchRet.val (staticEvaluation b p), best)
      else
        abLoopFull
          (fun m a bst =>
            (-(run_alphaBeta f (b.simulate_move m p) (-β) (-a) (opponent p)
                (depth + 1) bst).1.value,
             (run_alphaBeta f (b.simulate_move m p) (-β) (-a) (opponent p)
                (depth + 1) bst).2))
          β depth α best (orderedMoves b p) := rfl

theorem run_alphaBeta_value_eq : ∀ (fuel : Nat) (b : Board) (α β : Int)
    (p : Player) (depth : Nat) (best : Option Nat),
    ((run_alphaBeta fuel b α β p depth best).1).value =
      run_alphaBeta_val fuel b α β p := by
  intro fuel
  induction fuel with
  | zero =>
    intro b α β p depth best
    rw [run_alphaBeta_zero, run_alphaBeta_val_zero]
    rfl
  | succ f ih =>
    intro b α β p depth best
    cases hg : game_over b with
    | true =>
      rw [run_alphaBeta_succ, if_pos hg, run_alphaBeta_val_over (f + 1) b α β p hg]
      rfl
    | false =>
      rw [run_alphaBeta_succ, if_neg (by simp [hg]),
        run_alphaBeta_val_succ_not_over f b α β p hg]
      exact abLoopFull_value _ _ (fun m a bst => by rw [ih]) β depth
        (orderedMoves b p) α best

/-- With the full root window the pruned search returns exactly the unpruned
negamax value, at every fuel and depth. -/
theorem run_value_full_window (fuel : Nat) (b : Board) (p : Player)
    (depth : Nat) (best : Option Nat) :
    ((run_alphaBeta fuel b (-10000) 10000 p depth best).1).value =
      negamax fuel b p := by
  rw [run_alphaBeta_value_eq]
  have hb := negamax_bounds fuel b p
  exact (alphaBeta_threeCases fuel b p (-10000) 10000 (by norm_num)
    (by norm_num) (by norm_num)).2.2 (by omega) (by omega)

/-- C3: for every fixed board position and player to move, the value returned
by the alpha-beta-pruned search (`run_alphaBeta` with the full window
alpha = -10000, beta = 10000, invoked at the root exactly as `solve_cmd`
does) equals the value computed by an unpruned full-depth negamax over the
same position; pruning changes only the set of visited nodes, never the
returned value. -/
theorem claim_C3_alphaBeta_equals_negamax (fuel : Nat) (b : Board)
    (p : Player) (best : Option Nat) :
    ((run_alphaBeta fuel b (-10000) 10000 p 0 best).1).value =
      negamax fuel b p :=
  run_value_full_window fuel b p 0 best

/-! ### Pointwise description of grid updates -/

theorem getCellG_natCast (g : List Cell) (j : Nat) :
    getCellG g (j : Int) = g.getD j Cell.border := by
  unfold getCellG
  rw [if_neg (by omega), Int.toNat_natCast]

theorem getCellG_set (g : List Cell) (q : Nat) (v : Cell) (j : Nat) :
    getCellG (g.set q v) (j : Int) =
      if j = q ∧ q < g.length then v else getCellG g (j : Int) := by
  rw [getCellG_natCast, getCellG_natCast, List.getD_eq_getElem?_getD,
    List.getD_eq_getElem?_getD, List.getElem?_set]
  by_cases h : q = j
  · subst h
    by_cases h2 : q < g.length
    · rw [if_pos rfl, if_pos h2, if_pos ⟨rfl, h2⟩]
      rfl
    · rw [if_pos rfl, if_neg h2, if_neg (fun hc => h2 hc.2),
        List.getElem?_eq_none (by omega)]
  · rw [if_neg h, if_neg (fun hc => h hc.1.symm)]

theorem getCellG_set_ne (g : List Cell) (q : Nat) (v : Cell) (i : Int)
    (h : i ≠ (q : Int)) : getCellG (g.set q v) i = getCellG g i := by
  by_cases hneg : i < 0
  · unfold getCellG
    rw [if_pos hneg, if_pos hneg]
  · have hj : i = ((i.toNat : Nat) : Int) := by omega
    rw [hj, getCellG_set, if_neg (fun hc => h (by omega))]

theorem setCells_nil (g : List Cell) (v : Cell) : setCells g [] v = g := rfl

theorem setCells_cons (g : List Cell) (q : Nat) (qs : List Nat) (v : Cell) :
    setCells g (q :: qs) v = setCells (g.set q v) qs v := rfl

theorem length_setCells (v : Cell) (pts : List Nat) :
    ∀ g : List Cell, (setCells g pts v).length = g.length := by
  induction pts with
  | nil => intro g; rfl
  | cons q qs ih =>
    intro g
    rw [setCells_cons, ih, List.length_set]

theorem getCellG_setCells (v : Cell) (pts : List Nat) :
    ∀ (g : List Cell) (j : Nat),
      getCellG (setCells g pts v) (j : Int) =
        if j ∈ pts ∧ j < g.length then v else getCellG g (j : Int) := by
  induction pts with
  | nil =>
    intro g j
    rw [setCells_nil, if_neg (fun hc => (List.not_mem_nil j) hc.1)]
  | cons q qs ih =>
    intro g j
    rw [setCells_cons, ih (g.set q v) j, List.length_set]
    by_cases h1 : j ∈ qs ∧ j < g.length
    · rw [if_pos h1, if_pos ⟨List.mem_cons_of_mem _ h1.1, h1.2⟩]
    · rw [if_neg h1, getCellG_set]
      by_cases h2 : j = q ∧ q < g.length
      · rw [if_pos h2,
          if_pos ⟨by rw [h2.1]; exact List.mem_cons_self q qs, by omega⟩]
      · rw [if_neg h2, if_neg (fun hc => by
          rcases List.mem_cons.1 hc.1 with h | h
          · exact h2 ⟨h, by omega⟩
          · exact h1 ⟨h, hc.2⟩)]

/-! ### Counting empty points across an update -/

/-- The number of empty on-board points of a raw grid. -/
def emptyLenG (size : Nat) (g : List Cell) : Nat :=
  ((interiorPoints size).filter
    (fun p : Nat => getCellG g (p : Int) == Cell.empty)).length

theorem get_empty_points_length (b : Board) :
    b.get_empty_points.length = emptyLenG b.size b.grid := rfl

theorem interiorPoints_nodup (size : Nat) : (interiorPoints size).Nodup :=
  (List.nodup_range _).filter _

theorem filter_length_le_of_agree (q : Nat) (f g : Nat → Bool) :
    ∀ l : List Nat, (∀ x ∈ l, x ≠ q → f x = g x) → l.Nodup →
      (l.filter f).length ≤ (l.filter g).length + 1 := by
  intro l
  induction l with
  | nil => intro _ _; simp
  | cons x xs ih =>
    intro h hnd
    rw [List.filter_cons, List.filter_cons]
    have hnd2 := List.nodup_cons.1 hnd
    by_cases hx : x = q
    · subst hx
      have hrest : xs.filter f = xs.filter g :=
        List.filter_congr (fun y hy =>
          h y (List.mem_cons_of_mem _ hy) (fun e => hnd2.1 (e ▸ hy)))
      cases hfx : f x <;> cases hgx : g x <;> (simp [hrest]; try omega)
    · have hfg : f x = g x := h x (List.mem_cons_self x xs) hx
      have hih := ih (fun y hy => h y (List.mem_cons_of_mem _ hy)) hnd2.2
      rw [hfg]
      cases hgx : g x <;> simp <;> omega

theorem filter_length_flip (q : Nat) (f g : Nat → Bool) :
    ∀ l : List Nat, (∀ x ∈ l, x ≠ q → f x = g x) → l.Nodup → q ∈ l →
      f q = false → g q = true →
      (l.filter g).length = (l.filter f).length + 1 := by
  intro l
  induction l with
  | nil => intro _ _ hq; cases hq
  | cons x xs ih =>
    intro h hnd hq hf hg
    rw [List.filter_cons, List.filter_cons]
    have hnd2 := List.nodup_cons.1 hnd
    by_cases hx : x = q
    · subst hx
      have hrest : xs.filter f = xs.filter g :=
        List.filter_congr (fun y hy =>
          h y (List.mem_cons_of_mem _ hy) (fun e => hnd2.1 (e ▸ hy)))
      rw [hf, hg]
      simp [hrest]
    · have hq2 : q ∈ xs := by
        rcases List.mem_cons.1 hq with e | e
        · exact absurd e.symm hx
        · exact e
      have hfg : f x = g x := h x (List.mem_cons_self x xs) hx
      have hih := ih (fun y hy => h y (List.mem_cons_of_mem _ hy)) hnd2.2
        hq2 hf hg
      rw [hfg]
      cases hgx : g x <;> simp <;> omega

theorem emptyLenG_set_le (size : Nat) (g : List Cell) (q : Nat) (v : Cell) :
    emptyLenG size (g.set q v) ≤ emptyLenG size g + 1 := by
  unfold emptyLenG
  apply filter_length_le_of_agree q
  · intro x _ hne
    show (getCellG (g.set q v) (x : Int) == Cell.empty) =
      (getCellG g (x : Int) == Cell.empty)
    rw [getCellG_set, if_neg (fun hc => hne hc.1)]
  · exact interiorPoints_nodup size

theorem emptyLenG_setCells_le (size : Nat) (v : Cell) :
    ∀ (pts : List Nat) (g : List Cell),
      emptyLenG size (setCells g pts v) ≤ emptyLenG size g + pts.length := by
  intro pts
  induction pts with
  | nil => intro g; rw [setCells_nil]; omega
  | cons q qs ih =>
    intro g
    rw [setCells_cons]
    have h1 := ih (g.set q v)
    have h2 := emptyLenG_set_le size g q v
    simp only [List.length_cons]
    omega

theorem emptyLenG_place (size : Nat) (g : List Cell) (p : Nat) (c : Player)
    (hmem : p ∈ interiorPoints size)
    (hemp : getCellG g (p : Int) = Cell.empty) :
    emptyLenG size g = emptyLenG size (g.set p (Cell.ofPlayer c)) + 1 := by
  have hlen : p < g.length := by
    by_contra hge
    push_neg at hge
    rw [getCellG_natCast, List.getD_eq_default _ _ hge] at hemp
    cases hemp
  unfold emptyLenG
  apply filter_length_flip p
  · intro x _ hne
    show (getCellG (g.set p (Cell.ofPlayer c)) (x : Int) == Cell.empty) =
      (getCellG g (x : Int) == Cell.empty)
    rw [getCellG_set, if_neg (fun hc => hne hc.1)]
  · exact interiorPoints_nodup size
  · exact hmem
  · show (getCellG (g.set p (Cell.ofPlayer c)) (p : Int) == Cell.empty) = false
    rw [getCellG_set, if_pos ⟨rfl, hlen⟩]
    cases c <;> rfl
  · show (getCellG g (p : Int) == Cell.empty) = true
    rw [hemp]
    rfl

/-! ### The capture list is short and the move shrinks the measure -/

theorem capturedPoints_length (g : List Cell) (p : Nat) (c : Player)
    (size : Nat) :
    (capturedPoints g p c size).length = 2 * (bracketDirs g p c size).length := by
  unfold capturedPoints
  generalize bracketDirs g p c size = l
  induction l with
  | nil => rfl
  | cons d ds ih =>
    simp only [List.foldr_cons, List.length_cons]
    omega

theorem bracketDirs_length_le (g : List Cell) (p : Nat) (c : Player)
    (size : Nat) : (bracketDirs g p c size).length ≤ 8 := by
  have h := List.length_filter_le
    (fun d =>
      getCellG g ((p : Int) + d) == Cell.ofPlayer (opponent c) &&
      getCellG g ((p : Int) + 2 * d) == Cell.ofPlayer (opponent c) &&
      getCellG g ((p : Int) + 3 * d) == Cell.ofPlayer c)
    (allDirs size)
  simpa [allDirs, bracketDirs] using h

theorem simulate_move_caps_sum (b : Board) (m : Nat) (p : Player) :
    (b.simulate_move m p).black_captures +
        (b.simulate_move m p).white_captures =
      b.black_captures + b.white_captures +
        (capturedPoints (b.grid.set m (Cell.ofPlayer p)) m p b.size).length := by
  cases p <;> simp [Board.simulate_move, applyStone] <;> omega

/-- The decreasing measure of the search recursion: empty points plus a
weighted bound on the remaining capture budget. -/
def searchMeasure (b : Board) : Nat :=
  b.get_empty_points.length +
    17 * (52 - b.black_captures - b.white_captures)

theorem measure_decreases (b : Board) (p : Player) (m : Nat)
    (hm : m ∈ b.get_empty_points) (hg : game_over b = false) :
    searchMeasure (b.simulate_move m p) < searchMeasure b := by
  obtain ⟨hmem, hemp'⟩ := List.mem_filter.1 hm
  have hemp : getCellG b.grid (m : Int) = Cell.empty := eq_of_beq hemp'
  have hE : emptyLenG b.size b.grid =
      emptyLenG b.size (b.grid.set m (Cell.ofPlayer p)) + 1 :=
    emptyLenG_place b.size b.grid m p hmem hemp
  have hE2 : emptyLenG b.size
      (setCells (b.grid.set m (Cell.ofPlayer p))
        (capturedPoints (b.grid.set m (Cell.ofPlayer p)) m p b.size)
        Cell.empty) ≤
      emptyLenG b.size (b.grid.set m (Cell.ofPlayer p)) +
        (capturedPoints (b.grid.set m (Cell.ofPlayer p)) m p b.size).length :=
    emptyLenG_setCells_le b.size Cell.empty _ _
  have hk16 : (capturedPoints (b.grid.set m (Cell.ofPlayer p)) m p
      b.size).length ≤ 16 := by
    rw [capturedPoints_length]
    have := bracketDirs_length_le (b.grid.set m (Cell.ofPlayer p)) m p b.size
    omega
  have hsum := simulate_move_caps_sum b m p
  have hcap := caps_lt_of_not_over b hg
  have hsim : (b.simulate_move m p).get_empty_points.length =
      emptyLenG b.size
        (setCells (b.grid.set m (Cell.ofPlayer p))
          (capturedPoints (b.grid.set m (Cell.ofPlayer p)) m p b.size)
          Cell.empty) := rfl
  unfold searchMeasure
  rw [hsim, get_empty_points_length b]
  omega

/-! ### The search values at sufficient fuel -/

/-- The closed set of values the completed search can produce: the terminal
sentinels and their negations. -/
def resultSet : List Int := [-1000, -10, 0, 10, 1000]

theorem staticEvaluation_mem (b : Board) (p : Player)
    (h : game_over b = true) : staticEvaluation b p ∈ resultSet := by
  rcases staticEvaluation_terminal b p h with h1 | h1 | h1 <;>
    rw [h1] <;> simp [resultSet]

theorem resultSet_neg {x : Int} (h : x ∈ resultSet) : -x ∈ resultSet := by
  fin_cases h <;> simp [resultSet]

theorem resultSet_bounds {x : Int} (h : x ∈ resultSet) :
    -1000 ≤ x ∧ x ≤ 1000 := by
  fin_cases h <;> norm_num

theorem negamax_mem_resultSet : ∀ (fuel : Nat) (b : Board) (p : Player),
    searchMeasure b ≤ fuel → negamax fuel b p ∈ resultSet := by
  intro fuel
  induction fuel with
  | zero =>
    intro b p hf
    have hcap : 10 ≤ b.black_captures ∨ 10 ≤ b.white_captures := by
      unfold searchMeasure at hf
      omega
    have hr2 : result2 b ≠ Cell.empty := by
      unfold result2
      by_cases hb : 10 ≤ b.black_captures
      · rw [if_pos hb]
        exact fun hc => Cell.noConfusion hc
      · rw [if_neg hb, if_pos (by omega)]
        exact fun hc => Cell.noConfusion hc
    have hg : game_over b = true := by
      unfold game_over
      exact decide_eq_true (Or.inr (Or.inl hr2))
    rw [negamax_zero]
    exact staticEvaluation_mem b p hg
  | succ f ih =>
    intro b p hf
    cases hg : game_over b with
    | true =>
      rw [negamax_over _ _ _ hg]
      exact staticEvaluation_mem b p hg
    | false =>
      rw [negamax_succ_not_over f b p hg]
      have hne := get_empty_points_ne_nil b hg
      have hchild : ∀ m ∈ b.get_empty_points,
          -(negamax f (b.simulate_move m p) (opponent p)) ∈ resultSet := by
        intro m hm
        apply resultSet_neg
        apply ih
        have := measure_decreases b p m hm hg
        omega
      rcases foldMax_eq_init_or_mem
          (fun m => -(negamax f (b.simulate_move m p) (opponent p)))
          b.get_empty_points (-10000) with h | ⟨m, hm, hfm⟩
      · exfalso
        obtain ⟨m0, hm0⟩ := List.exists_mem_of_ne_nil _ hne
        have h1 : -(negamax f (b.simulate_move m0 p) (opponent p)) ≤
            foldMax (fun m => -(negamax f (b.simulate_move m p) (opponent p)))
              (-10000) b.get_empty_points :=
          mem_le_foldMax _ _ _ m0 hm0
        have h2 := resultSet_bounds (hchild m0 hm0)
        omega
      · rw [hfm]
        exact hchild m hm

/-- C8: the static evaluator is consulted by the search only on states the
terminal predicate accepts, and under that precondition it returns one of the
loss, draw or win sentinels (-1000, 0, 10) — never the non-terminal
placeholder 1; moreover, with fuel covering the search measure (the search
runs to true terminals), the placeholder never surfaces as the root value of
the solve search. -/
theorem claim_C8_placeholder_unreachable (b : Board) (p : Player)
    (fuel : Nat) (best : Option Nat) :
    (game_over b = true →
      staticEvaluation b p = -1000 ∨ staticEvaluation b p = 0 ∨
        staticEvaluation b p = 10) ∧
    (searchMeasure b ≤ fuel →
      ((run_alphaBeta fuel b (-10000) 10000 p 0 best).1).value ≠ 1) := by
  refine ⟨staticEvaluation_terminal b p, fun hf => ?_⟩
  rw [run_value_full_window]
  have hmem := negamax_mem_resultSet fuel b p hf
  intro h1
  rw [h1] at hmem
  simp [resultSet] at hmem

/-! ### The sorted move list is ordered by descending score, ties ascending -/

/-- The order the spec requires of the expansion list: strictly descending
score, with equal scores broken by ascending move index. -/
def scoreOrder (u v : Nat × Int) : Prop :=
  v.2 < u.2 ∨ (u.2 = v.2 ∧ u.1 < v.1)

theorem insertDesc_cons (x y : Nat × Int) (ys : List (Nat × Int)) :
    insertDesc x (y :: ys) =
      if y.2 ≤ x.2 then x :: y :: ys else y :: insertDesc x ys := rfl

theorem insertDesc_pairwise (x : Nat × Int) :
    ∀ l : List (Nat × Int), l.Pairwise scoreOrder →
      (∀ y ∈ l, x.1 < y.1) → (insertDesc x l).Pairwise scoreOrder := by
  intro l
  induction l with
  | nil => intro _ _; simp [insertDesc]
  | cons y ys ih =>
    intro hp hidx
    rw [List.pairwise_cons] at hp
    by_cases hle : y.2 ≤ x.2
    · rw [insertDesc_cons, if_pos hle]
      rw [List.pairwise_cons]
      refine ⟨?_, List.pairwise_cons.2 hp⟩
      intro z hz
      rcases List.mem_cons.1 hz with rfl | hz2
      · rcases lt_or_eq_of_le hle with h | h
        · exact Or.inl h
        · exact Or.inr ⟨h.symm, hidx z (List.mem_cons_self z ys)⟩
      · have hyz := hp.1 z hz2
        unfold scoreOrder at hyz
        rcases hyz with h | h
        · rcases lt_or_eq_of_le hle with h2 | h2
          · exact Or.inl (lt_trans h h2)
          · exact Or.inl (h2 ▸ h)
        · rcases lt_or_eq_of_le hle with h2 | h2
          · exact Or.inl (h.1 ▸ h2)
          · exact Or.inr ⟨by omega, hidx z (List.mem_cons_of_mem _ hz2)⟩
    · rw [insertDesc_cons, if_neg hle]
      rw [List.pairwise_cons]
      constructor
      · intro z hz
        have hz2 := (insertDesc_perm x ys).mem_iff.1 hz
        rcases List.mem_cons.1 hz2 with rfl | hz3
        · exact Or.inl (by omega)
        · exact hp.1 z hz3
      · exact ih hp.2 (fun z hz => hidx z (List.mem_cons_of_mem _ hz))

theorem sortDesc_pairwise :
    ∀ l : List (Nat × Int), l.Pairwise (fun u v => u.1 < v.1) →
      (sortDesc l).Pairwise scoreOrder := by
  intro l
  induction l with
  | nil => intro _; simp [sortDesc]
  | cons x xs ih =>
    intro hp
    rw [List.pairwise_cons] at hp
    apply insertDesc_pairwise x (sortDesc xs) (ih hp.2)
    intro y hy
    exact hp.1 y ((sortDesc_perm xs).mem_iff.1 hy)

theorem get_empty_points_sorted (b : Board) :
    b.get_empty_points.Pairwise (fun u v => u < v) := by
  apply List.Pairwise.sublist (List.filter_sublist _)
  apply List.Pairwise.sublist (List.filter_sublist _)
  exact List.pairwise_lt_range _

theorem heuristicEvaluation_sorted (b : Board) (p : Player) :
    (b.heuristicEvaluation p b.get_empty_points).Pairwise
      (fun u v => u.1 < v.1) := by
  unfold Board.heuristicEvaluation
  exact (get_empty_points_sorted b).map _ (fun a c h => h)

/-- C9: the heuristic move scoring is deterministic — two invocations on the
same board, color and candidate set give the identical move-to-score mapping
— and the ordering `run_alphaBeta` derives from it (the stable descending
sort of source line 503) lists moves in descending score, with moves of
equal score kept in ascending move-index order. -/
theorem claim_C9_ordering_deterministic (b : Board) (p : Player) :
    b.heuristicEvaluation p b.get_empty_points =
      b.heuristicEvaluation p b.get_empty_points ∧
    orderedMoves b p =
      (sortDesc (b.heuristicEvaluation p b.get_empty_points)).map Prod.fst ∧
    (sortDesc (b.heuristicEvaluation p b.get_empty_points)).Pairwise
      scoreOrder := by
  refine ⟨rfl, rfl, ?_⟩
  exact sortDesc_pairwise _ (heuristicEvaluation_sorted b p)

/-! ### The captured points of a placement -/

theorem ofPlayer_ne_border (c : Player) : Cell.ofPlayer c ≠ Cell.border := by
  cases c <;> simp [Cell.ofPlayer]

theorem ofPlayer_ne_empty (c : Player) : Cell.ofPlayer c ≠ Cell.empty := by
  cases c <;> simp [Cell.ofPlayer]

theorem ofPlayer_ne_opp (c : Player) :
    Cell.ofPlayer c ≠ Cell.ofPlayer (opponent c) := by
  cases c <;> simp [Cell.ofPlayer, opponent]

theorem getCellG_ne_border {g : List Cell} {i : Int}
    (h : getCellG g i ≠ Cell.border) : 0 ≤ i ∧ i.toNat < g.length := by
  unfold getCellG at h
  by_cases h1 : i < 0
  · rw [if_pos h1] at h
    exact absurd rfl h
  · rw [if_neg h1] at h
    refine ⟨by omega, ?_⟩
    by_contra h2
    push_neg at h2
    rw [List.getD_eq_default _ _ h2] at h
    exact h rfl

theorem mem_foldr_two (f g : Int → Nat) :
    ∀ (l : List Int) (q : Nat),
      q ∈ l.foldr (fun d acc => f d :: g d :: acc) [] ↔
        ∃ d ∈ l, q = f d ∨ q = g d := by
  intro l q
  induction l with
  | nil => simp
  | cons d ds ih =>
    simp only [List.foldr_cons, List.mem_cons, ih]
    constructor
    · rintro (h | h | ⟨x, hx, hor⟩)
      · exact ⟨d, Or.inl rfl, Or.inl h⟩
      · exact ⟨d, Or.inl rfl, Or.inr h⟩
      · exact ⟨x, Or.inr hx, hor⟩
    · rintro ⟨x, hx | hx, hor⟩
      · subst hx
        rcases hor with h | h
        · exact Or.inl h
        · exact Or.inr (Or.inl h)
      · exact Or.inr (Or.inr ⟨x, hx, hor⟩)

theorem mem_capturedPoints (g : List Cell) (p : Nat) (c : Player) (size : Nat)
    (q : Nat) :
    q ∈ capturedPoints g p c size ↔
      ∃ d ∈ bracketDirs g p c size,
        q = ((p : Int) + d).toNat ∨ q = ((p : Int) + 2 * d).toNat :=
  mem_foldr_two _ _ _ q

theorem bracketDirs_mem {g : List Cell} {p : Nat} {c : Player} {size : Nat}
    {d : Int} (h : d ∈ bracketDirs g p c size) :
    getCellG g ((p : Int) + d) = Cell.ofPlayer (opponent c) ∧
    getCellG g ((p : Int) + 2 * d) = Cell.ofPlayer (opponent c) ∧
    getCellG g ((p : Int) + 3 * d) = Cell.ofPlayer c := by
  unfold bracketDirs at h
  have h2 := (List.mem_filter.1 h).2
  simp only [Bool.and_eq_true, beq_iff_eq] at h2
  exact ⟨h2.1.1, h2.1.2, h2.2⟩

/-- Facts about every captured point of a legal placement: it is not the
placed point, it is in range, and the board held an opponent stone there. -/
theorem capturedPoints_facts (b : Board) (p : Nat) (c : Player)
    (hemp : getCellG b.grid (p : Int) = Cell.empty) :
    ∀ q ∈ capturedPoints (b.grid.set p (Cell.ofPlayer c)) p c b.size,
      q ≠ p ∧ q < b.grid.length ∧
        getCellG b.grid (q : Int) = Cell.ofPlayer (opponent c) := by
  have hplen : p < b.grid.length := by
    have hnb : getCellG b.grid (p : Int) ≠ Cell.border := by
      rw [hemp]
      exact fun hc => Cell.noConfusion hc
    have := getCellG_ne_border hnb
    omega
  have hg1p : getCellG (b.grid.set p (Cell.ofPlayer c)) (p : Int) =
      Cell.ofPlayer c := by
    rw [getCellG_set, if_pos ⟨rfl, hplen⟩]
  intro q hq
  rcases (mem_capturedPoints _ p c b.size q).1 hq with ⟨d, hd, hq12⟩
  obtain ⟨h1, h2, h3⟩ := bracketDirs_mem hd
  have hkd : ∀ k : Int, getCellG (b.grid.set p (Cell.ofPlayer c))
      ((p : Int) + k * d) = Cell.ofPlayer (opponent c) →
      (q = ((p : Int) + k * d).toNat → q ≠ p ∧ q < b.grid.length ∧
        getCellG b.grid (q : Int) = Cell.ofPlayer (opponent c)) := by
    intro k hcell hqe
    have hnb : getCellG (b.grid.set p (Cell.ofPlayer c)) ((p : Int) + k * d) ≠
        Cell.border := by
      rw [hcell]
      exact ofPlayer_ne_border _
    obtain ⟨hge, hlt⟩ := getCellG_ne_border hnb
    rw [List.length_set] at hlt
    have hne : q ≠ p := by
      intro he
      have hzero : (p : Int) + k * d = (p : Int) := by omega
      rw [hzero, hg1p] at hcell
      exact ofPlayer_ne_opp c hcell
    have hcast : ((q : Nat) : Int) = (p : Int) + k * d := by omega
    refine ⟨hne, by omega, ?_⟩
    have hread : getCellG (b.grid.set p (Cell.ofPlayer c)) (q : Int) =
        getCellG b.grid (q : Int) := by
      apply getCellG_set_ne
      intro hc
      exact hne (by omega)
    rw [← hread, hcast]
    exact hcell
  rcases hq12 with hqe | hqe
  · exact hkd 1 (by rw [one_mul]; exact h1) (by rw [one_mul]; exact hqe)
  · exact hkd 2 h2 hqe

/-- C4: for a legal placement, the brackets the stone completes are exactly
the pre-placement color-opp-opp-color patterns in the eight directions; the
new grid holds the placed stone, has exactly the bracketed opponent stones
removed, and is unchanged elsewhere; the placing color's capture counter
rises by exactly 2 per completed bracket and the opponent's counter is
unchanged; and a placement completing no bracket removes no stone and
changes no counter. -/
theorem claim_C4_capture_correct (b : Board) (p : Nat) (c : Player)
    (b2 : Board) (hplay : b.play_move p c = some b2) :
    (bracketDirs (b.grid.set p (Cell.ofPlayer c)) p c b.size =
      (allDirs b.size).filter (fun d =>
        b.getCell ((p : Int) + d) == Cell.ofPlayer (opponent c) &&
        b.getCell ((p : Int) + 2 * d) == Cell.ofPlayer (opponent c) &&
        b.getCell ((p : Int) + 3 * d) == Cell.ofPlayer c)) ∧
    (∀ q : Nat, b2.getCell (q : Int) =
      if q = p then Cell.ofPlayer c
      else if q ∈ capturedPoints (b.grid.set p (Cell.ofPlayer c)) p c b.size
        then Cell.empty
      else b.getCell (q : Int)) ∧
    (∀ q ∈ capturedPoints (b.grid.set p (Cell.ofPlayer c)) p c b.size,
      b.getCell (q : Int) = Cell.ofPlayer (opponent c)) ∧
    (b2.get_captures c = b.get_captures c +
      2 * (bracketDirs (b.grid.set p (Cell.ofPlayer c)) p c b.size).length) ∧
    (b2.get_captures (opponent c) = b.get_captures (opponent c)) ∧
    (bracketDirs (b.grid.set p (Cell.ofPlayer c)) p c b.size = [] →
      (∀ q : Nat, q ≠ p → b2.getCell (q : Int) = b.getCell (q : Int)) ∧
      b2.black_captures = b.black_captures ∧
      b2.white_captures = b.white_captures) := by
  unfold Board.play_move at hplay
  split_ifs at hplay with hemp
  injection hplay with hb2
  subst hb2
  have hemp2 : getCellG b.grid (p : Int) = Cell.empty := hemp
  have hplen : p < b.grid.length := by
    have hnb : getCellG b.grid (p : Int) ≠ Cell.border := by
      rw [hemp2]
      exact fun hc => Cell.noConfusion hc
    have := getCellG_ne_border hnb
    omega
  have hfacts := capturedPoints_facts b p c hemp2
  have hlen1 : (b.grid.set p (Cell.ofPlayer c)).length = b.grid.length :=
    List.length_set b.grid p _
  have hbd : bracketDirs (b.grid.set p (Cell.ofPlayer c)) p c b.size =
      (allDirs b.size).filter (fun d =>
        b.getCell ((p : Int) + d) == Cell.ofPlayer (opponent c) &&
        b.getCell ((p : Int) + 2 * d) == Cell.ofPlayer (opponent c) &&
        b.getCell ((p : Int) + 3 * d) == Cell.ofPlayer c) := by
    unfold bracketDirs
    apply List.filter_congr
    intro d _
    by_cases hd0 : d = 0
    · subst hd0
      have hstone : getCellG (b.grid.set p (Cell.ofPlayer c))
          ((p : Int) + 1 * 0) = Cell.ofPlayer c := by
        rw [show (p : Int) + 1 * 0 = (p : Int) by ring, getCellG_set,
          if_pos ⟨rfl, hplen⟩]
      have hL : (getCellG (b.grid.set p (Cell.ofPlayer c)) ((p : Int) + 0) ==
          Cell.ofPlayer (opponent c)) = false := by
        rw [show (p : Int) + 0 = (p : Int) + 1 * 0 by ring, hstone]
        exact beq_eq_false_iff_ne.2 (ofPlayer_ne_opp c)
      have hR : (b.getCell ((p : Int) + 0) ==
          Cell.ofPlayer (opponent c)) = false := by
        show (getCellG b.grid ((p : Int) + 0) ==
          Cell.ofPlayer (opponent c)) = false
        rw [show (p : Int) + 0 = (p : Int) by ring, hemp2]
        cases c <;> rfl
      rw [hL, hR]
      simp
    · have hne : ∀ k : Int, k ≠ 0 →
          getCellG (b.grid.set p (Cell.ofPlayer c)) ((p : Int) + k * d) =
            getCellG b.grid ((p : Int) + k * d) := by
        intro k hk
        apply getCellG_set_ne
        intro hc
        have : k * d = 0 := by omega
        rcases mul_eq_zero.1 this with h | h
        · exact hk h
        · exact hd0 h
      have e1 := hne 1 (by norm_num)
      have e2 := hne 2 (by norm_num)
      have e3 := hne 3 (by norm_num)
      rw [one_mul] at e1
      show (getCellG (b.grid.set p (Cell.ofPlayer c)) ((p : Int) + d) ==
          Cell.ofPlayer (opponent c) &&
        getCellG (b.grid.set p (Cell.ofPlayer c)) ((p : Int) + 2 * d) ==
          Cell.ofPlayer (opponent c) &&
        getCellG (b.grid.set p (Cell.ofPlayer c)) ((p : Int) + 3 * d) ==
          Cell.ofPlayer c) =
        (getCellG b.grid ((p : Int) + d) == Cell.ofPlayer (opponent c) &&
         getCellG b.grid ((p : Int) + 2 * d) == Cell.ofPlayer (opponent c) &&
         getCellG b.grid ((p : Int) + 3 * d) == Cell.ofPlayer c)
      rw [e1, e2, e3]
  have hdesc : ∀ q : Nat,
      getCellG (setCells (b.grid.set p (Cell.ofPlayer c))
        (capturedPoints (b.grid.set p (Cell.ofPlayer c)) p c b.size)
        Cell.empty) (q : Int) =
      if q = p then Cell.ofPlayer c
      else if q ∈ capturedPoints (b.grid.set p (Cell.ofPlayer c)) p c b.size
        then Cell.empty
      else getCellG b.grid (q : Int) := by
    intro q
    rw [getCellG_setCells]
    by_cases hq1 : q = p
    · subst hq1
      rw [if_pos rfl,
        if_neg (fun hc => ((hfacts q hc.1).1 rfl).elim), getCellG_set,
        if_pos ⟨rfl, hplen⟩]
    · rw [if_neg hq1]
      by_cases hq2 : q ∈ capturedPoints (b.grid.set p (Cell.ofPlayer c)) p c
        b.size
      · have hql := (hfacts q hq2).2.1
        rw [if_pos ⟨hq2, by omega⟩, if_pos hq2]
      · rw [if_neg (fun hc => hq2 hc.1), if_neg hq2]
        apply getCellG_set_ne
        intro hc
        exact hq1 (by omega)
  refine ⟨hbd, hdesc, fun q hq => (hfacts q hq).2.2, ?_, ?_, ?_⟩
  · have hcl := capturedPoints_length (b.grid.set p (Cell.ofPlayer c)) p c
      b.size
    cases c <;> simp [Board.get_captures, applyStone] <;> omega
  · cases c <;> simp [Board.get_captures, applyStone, opponent]
  · intro hbdnil
    have hcapsnil : capturedPoints (b.grid.set p (Cell.ofPlayer c)) p c
        b.size = [] := by
      unfold capturedPoints
      rw [hbdnil]
      rfl
    refine ⟨fun q hq => ?_, ?_, ?_⟩
    · have hd := hdesc q
      rw [if_neg hq,
        if_neg (show ¬q ∈ capturedPoints (b.grid.set p (Cell.ofPlayer c)) p c
          b.size by rw [hcapsnil]; exact List.not_mem_nil q)] at hd
      exact hd
    · show b.black_captures +
        (if c = Player.black
          then (capturedPoints (b.grid.set p (Cell.ofPlayer c)) p c
            b.size).length
          else 0) = b.black_captures
      rw [hcapsnil]
      cases c <;> simp
    · show b.white_captures +
        (if c = Player.white
          then (capturedPoints (b.grid.set p (Cell.ofPlayer c)) p c
            b.size).length
          else 0) = b.white_captures
      rw [hcapsnil]
      cases c <;> simp

/-! ### Play followed by undo restores the exact state -/

theorem grid_ext (g1 g2 : List Cell) (hlen : g1.length = g2.length)
    (h : ∀ j : Nat, getCellG g1 (j : Int) = getCellG g2 (j : Int)) :
    g1 = g2 := by
  apply List.ext_getElem?
  intro n
  by_cases hn : n < g1.length
  · have h1 := h n
    rw [getCellG_natCast, getCellG_natCast, List.getD_eq_getElem?_getD,
      List.getD_eq_getElem?_getD, List.getElem?_eq_getElem hn,
      List.getElem?_eq_getElem (show n < g2.length by omega)] at h1
    rw [List.getElem?_eq_getElem hn,
      List.getElem?_eq_getElem (show n < g2.length by omega)]
    simpa using h1
  · rw [List.getElem?_eq_none (by omega), List.getElem?_eq_none (by omega)]

theorem board_ext (a b : Board) (h1 : a.size = b.size) (h2 : a.grid = b.grid)
    (h3 : a.black_captures = b.black_captures)
    (h4 : a.white_captures = b.white_captures)
    (h5 : a.current_player = b.current_player)
    (h6 : a.history = b.history) : a = b := by
  cases a
  cases b
  simp_all

/-- C5: playing any legal move and then undoing it restores the board grid,
both capture counters, the player to move and the move history exactly —
full state equality of the `Board`. -/
theorem claim_C5_play_undo_roundtrip (b : Board) (p : Nat) (c : Player)
    (b2 : Board) (hplay : b.play_move p c = some b2) :
    b2.undoMove = some b := by
  unfold Board.play_move at hplay
  split_ifs at hplay with hemp
  injection hplay with hb2
  subst hb2
  have hemp2 : getCellG b.grid (p : Int) = Cell.empty := hemp
  have hplen : p < b.grid.length := by
    have hnb : getCellG b.grid (p : Int) ≠ Cell.border := by
      rw [hemp2]
      exact fun hc => Cell.noConfusion hc
    have := getCellG_ne_border hnb
    omega
  have hfacts := capturedPoints_facts b p c hemp2
  have hlen1 : (b.grid.set p (Cell.ofPlayer c)).length = b.grid.length :=
    List.length_set b.grid p _
  have hlenA : (setCells (b.grid.set p (Cell.ofPlayer c))
      (capturedPoints (b.grid.set p (Cell.ofPlayer c)) p c b.size)
      Cell.empty).length = b.grid.length := by
    rw [length_setCells, hlen1]
  have hgrid : setCells
      ((setCells (b.grid.set p (Cell.ofPlayer c))
        (capturedPoints (b.grid.set p (Cell.ofPlayer c)) p c b.size)
        Cell.empty).set p Cell.empty)
      (capturedPoints (b.grid.set p (Cell.ofPlayer c)) p c b.size)
      (Cell.ofPlayer (opponent c)) = b.grid := by
    apply grid_ext
    · rw [length_setCells, List.length_set, hlenA]
    intro j
    rw [getCellG_setCells]
    by_cases hj : j ∈ capturedPoints (b.grid.set p (Cell.ofPlayer c)) p c
      b.size
    · obtain ⟨hjp, hjlen, hjcell⟩ := hfacts j hj
      rw [if_pos ⟨hj, by rw [List.length_set, hlenA]; omega⟩, hjcell]
    · rw [if_neg (fun hc => hj hc.1), getCellG_set]
      by_cases hjp : j = p
      · subst hjp
        rw [if_pos ⟨rfl, by rw [hlenA]; omega⟩, hemp2]
      · rw [if_neg (fun hc => hjp hc.1), getCellG_setCells,
          if_neg (fun hc => hj hc.1)]
        apply getCellG_set_ne
        intro hc
        exact hjp (by omega)
  simp only [Board.undoMove]
  apply congrArg some
  apply board_ext
  · rfl
  · exact hgrid
  · cases c <;> simp [applyStone]
  · cases c <;> simp [applyStone]
  · rfl
  · rfl

/-! ### Concrete boards for the witnesses and counterexamples -/

/-- The all-empty padded grid of a given size. -/
def emptyGrid (size : Nat) : List Cell :=
  (List.range (gridLen size)).map
    (fun p => if isInterior size p then Cell.empty else Cell.border)

/-- 5×5 board with white stones at B1, C1 and a black stone at D1: placing a
black stone at A1 completes the bracket black-white-white-black on row 1. -/
def w45Before : Board :=
  { size := 5
    grid := setCells (setCells (emptyGrid 5) [10] Cell.black) [8, 9] Cell.white
    black_captures := 0
    white_captures := 0
    current_player := Player.black
    history := [] }

/-- The board after black plays A1 (point 7) on `w45Before`. -/
def w45After : Board :=
  (w45Before.play_move 7 Player.black).getD w45Before

theorem claim_C4_witness :
    Board.play_move w45Before 7 Player.black = some w45After ∧
    w45After.get_captures Player.black =
      w45Before.get_captures Player.black +
        2 * (bracketDirs (w45Before.grid.set 7 (Cell.ofPlayer Player.black)) 7
          Player.black w45Before.size).length :=
  ⟨by decide, (claim_C4_capture_correct w45Before 7 Player.black w45After
    (by decide)).2.2.2.1⟩

theorem claim_C5_witness :
    Board.play_move w45Before 7 Player.black = some w45After ∧
    Board.undoMove w45After = some w45Before :=
  ⟨by decide, claim_C5_play_undo_roundtrip w45Before 7 Player.black w45After
    (by decide)⟩

/-- A full 1×1 board: a terminal position with no empty points. -/
def w8board : Board :=
  { size := 1
    grid := [Cell.border, Cell.border, Cell.border, Cell.black, Cell.border,
      Cell.border]
    black_captures := 0
    white_captures := 0
    current_player := Player.black
    history := [] }

theorem claim_C8_witness :
    game_over w8board = true ∧ searchMeasure w8board ≤ 884 ∧
    (staticEvaluation w8board Player.black = -1000 ∨
      staticEvaluation w8board Player.black = 0 ∨
      staticEvaluation w8board Player.black = 10) ∧
    ((run_alphaBeta 884 w8board (-10000) 10000 Player.black 0 none).1).value ≠
      1 :=
  ⟨by decide, by decide,
    (claim_C8_placeholder_unreachable w8board Player.black 884 none).1
      (by decide),
    (claim_C8_placeholder_unreachable w8board Player.black 884 none).2
      (by decide)⟩

/-! ### The winner computation: black's capture threshold beats white's five -/

/-- 5×5 board with a white five in a row on row 1 while black already has 10
captures: `winner` reports black. -/
def c10board : Board :=
  { size := 5
    grid := setCells (emptyGrid 5) [7, 8, 9, 10, 11] Cell.white
    black_captures := 10
    white_captures := 0
    current_player := Player.black
    history := [] }

/-- C10 counterexample: on a board where white has five in a row, no black
five exists, and black's capture count is at least 10, `winner` reports
black — five-in-a-row does not take priority over the capture threshold, so
the claim's priority statement is false on the code. -/
theorem claim_C10_counterexample :
    winner c10board = Cell.black ∧
    c10board.detect_five_in_a_row = Cell.white ∧
    10 ≤ c10board.black_captures := by
  exact ⟨by decide, by decide, by decide⟩

/-- C10 amended: `winner` checks black's two win conditions (five in a row,
or at least 10 captures) before white's; within the capture threshold black
is checked first, so white's capture count is consulted only when black's is
below 10, and a state in which both players have 10 captures and no five in
a row is reported as a win for black. Five-in-a-row has priority over the
capture threshold only within one color, not across colors. -/
theorem claim_C10_amended (b : Board) :
    winner b =
      if b.detect_five_in_a_row = Cell.black ∨ 10 ≤ b.black_captures
        then Cell.black
      else if b.detect_five_in_a_row = Cell.white ∨
          (b.black_captures < 10 ∧ 10 ≤ b.white_captures)
        then Cell.white
      else Cell.empty := by
  have hd : b.detect_five_in_a_row = Cell.black ∨
      b.detect_five_in_a_row = Cell.white ∨
      b.detect_five_in_a_row = Cell.empty := by
    unfold Board.detect_five_in_a_row
    split_ifs <;> simp
  unfold winner result2
  rcases hd with hd | hd | hd <;> rw [hd] <;>
    by_cases hb : 10 ≤ b.black_captures <;>
      by_cases hw : 10 ≤ b.white_captures <;>
        (simp [hb, hw]
         try rw [if_pos (show b.black_captures < 10 by omega)])

/-! ### solve_cmd on terminal positions raises instead of responding -/

/-- 5×5 board with a black five in a row on row 1, white to move: the winner
(black) is the opponent of the side to move. -/
def c1board : Board :=
  { size := 5
    grid := setCells (emptyGrid 5) [7, 8, 9, 10, 11] Cell.black
    black_captures := 0
    white_captures := 0
    current_player := Player.white
    history := [] }

/-- C1: on a position whose determined winner (black) is the opponent of the
side to move (white), `solve_cmd` reports no outcome at all: `run_alphaBeta`
returns a bare static evaluation and `solve_cmd` subscripts the plain int
(`value[1]`), raising TypeError — instead of the claimed response naming the
opponent's color with no move (and had the respond branch been reached, its
final else hard-codes "white"). -/
theorem claim_C1_solve_bug :
    winner c1board = Cell.black ∧
    c1board.current_player = Player.white ∧
    solve_cmd 3 c1board none = (Except.error "TypeError", c1board, none) := by
  exact ⟨by decide, rfl, by rfl⟩

/-- 5×5 board, empty grid, black already at the 10-capture threshold: an
already-terminal position. -/
def c2board : Board :=
  { size := 5
    grid := emptyGrid 5
    black_captures := 10
    white_captures := 0
    current_player := Player.black
    history := [] }

/-- C2: on an already-terminal position `run_alphaBeta` does return
immediately with the bare static evaluation and no recursion, but
`solve_cmd` then subscripts that plain int (`value[1]`) and raises TypeError
instead of returning the known outcome. -/
theorem claim_C2_terminal_solve_bug :
    game_over c2board = true ∧
    run_alphaBeta 3 c2board (-10000) 10000 Player.black 0 none =
      (SearchRet.val (staticEvaluation c2board Player.black), none) ∧
    solve_cmd 3 c2board none = (Except.error "TypeError", c2board, none) := by
  exact ⟨by decide, by decide, by rfl⟩

/-- C6: running the solve command leaves the live game board unchanged —
after `solve_cmd` returns (the search mutates only copies; the only live
mutation is the `best_move` attribute, modelled as the separate third
component), the live board's grid, capture counters, current player and
move history equal their values before the call. -/
theorem claim_C6_solve_preserves_board (fuel : Nat) (b : Board)
    (best : Option Nat) :
    (solve_cmd fuel b best).2.1.grid = b.grid ∧
    (solve_cmd fuel b best).2.1.black_captures = b.black_captures ∧
    (solve_cmd fuel b best).2.1.white_captures = b.white_captures ∧
    (solve_cmd fuel b best).2.1.current_player = b.current_player ∧
    (solve_cmd fuel b best).2.1.history = b.history :=
  ⟨rfl, rfl, rfl, rfl, rfl⟩

/-! ### play_cmd failures leave the board untouched -/

/-- C7: every `play` command that does not succeed — in particular one whose
coordinate string is malformed (bad column letter, column i, row below 1, or
coordinates outside the board, all reported by `move_to_coord` as errors) or
whose target cell is occupied — reports a local failure with a descriptive
reason and leaves the board state unchanged: no stone is placed and no
counter is modified. -/
theorem claim_C7_play_errors_leave_board (b : Board) (cs ms : String) :
    ((play_cmd b cs ms).1 ≠ PlayRes.done → (play_cmd b cs ms).2 = b) ∧
    (∀ e : String, move_to_coord ms b.size = Except.error e →
      ∃ r : String, (play_cmd b cs ms).1 = PlayRes.illegal r ∧
        (play_cmd b cs ms).2 = b) ∧
    (∀ row col : Nat,
      move_to_coord ms b.size = Except.ok (some (row, col)) →
      b.getCell ((coord_to_point row col b.size : Nat) : Int) ≠ Cell.empty →
      ∃ r : String, (play_cmd b cs ms).1 = PlayRes.illegal r ∧
        (play_cmd b cs ms).2 = b) := by
  unfold play_cmd
  by_cases hc : strLower cs ≠ "b" ∧ strLower cs ≠ "w"
  · rw [if_pos hc]
    exact ⟨fun _ => rfl, fun e _ => ⟨"wrong color", rfl, rfl⟩,
      fun row col _ _ => ⟨"wrong color", rfl, rfl⟩⟩
  · rw [if_neg hc]
    cases hmtc : move_to_coord ms b.size with
    | error e =>
      exact ⟨fun _ => rfl, fun e2 _ => ⟨e, rfl, rfl⟩,
        fun row col hok _ => by cases hok⟩
    | ok o =>
      cases o with
      | none =>
        refine ⟨fun _ => rfl, fun e2 he2 => ?_, fun row col hok _ => ?_⟩
        · cases he2
        · injection hok with hok2
          cases hok2
      | some rc =>
        obtain ⟨row, col⟩ := rc
        cases hpm : b.play_move (coord_to_point row col b.size)
            (if strLower cs = "b" then Player.black else Player.white) with
        | none =>
          simp only [hpm]
          refine ⟨fun _ => trivial, fun e2 he2 => ?_,
            fun r2 c2 _ _ => ⟨"occupied", rfl, trivial⟩⟩
          cases he2
        | some b2 =>
          simp only [hpm]
          refine ⟨fun hne => absurd rfl hne, fun e2 he2 => ?_,
            fun r2 c2 hok hocc => ?_⟩
          · cases he2
          · injection hok with hok2
            injection hok2 with hok3
            injection hok3 with hr hcc
            exfalso
            have hpe : b.getCell
                ((coord_to_point row col b.size : Nat) : Int) = Cell.empty := by
              by_contra hne
              unfold Board.play_move at hpm
              rw [if_neg hne] at hpm
              cases hpm
            rw [hr, hcc] at hpe
            exact hocc hpe

deriving instance DecidableEq for Except

/-- A 5×5 board with A1 occupied by a black stone, for the occupied-target
and malformed-coordinate failure cases of the play command. -/
def c7board : Board :=
  { size := 5
    grid := setCells (emptyGrid 5) [7] Cell.black
    black_captures := 0
    white_captures := 0
    current_player := Player.white
    history := [] }

theorem claim_C7_witness :
    move_to_coord "i1" 5 = Except.error "wrong coordinate" ∧
    (∃ r : String, (play_cmd c7board "w" "i1").1 = PlayRes.illegal r ∧
      (play_cmd c7board "w" "i1").2 = c7board) ∧
    move_to_coord "a1" 5 = Except.ok (some (1, 1)) ∧
    (∃ r : String, (play_cmd c7board "w" "a1").1 = PlayRes.illegal r ∧
      (play_cmd c7board "w" "a1").2 = c7board) :=
  ⟨by decide,
    (claim_C7_play_errors_leave_board c7board "w" "i1").2.1
      "wrong coordinate" (by decide),
    by decide,
    (claim_C7_play_errors_leave_board c7board "w" "a1").2.2 1 1 (by decide)
      (by decide)⟩

end Ninuki
